import Mathlib

/-!
Shallow embedding of the uplink-fairness measurement harness
(`src/ns3/fairness11ax.cc`): the Poisson UDP traffic source
(`PoissonUdpApp`), the CSV rate-list parser (`ParseCsvDoubles`), the
per-station arrival-rate assignment, the per-station event-counter table
(`StaStats`) with its notification handlers, the result-reduction loop of
`main`, and the trace wiring of `main`.

Machine integers of the source (`uint32_t`, `uint64_t`) are modelled as
`Nat` (all counters only ever increase by small amounts and the source
never relies on wrap-around); `double` rates are modelled as `ℚ`.
-/

namespace Fairness11ax

/-- Embeds `struct StaStats` (per-station counters).  Every field is
value-initialised to 0 in the source. -/
structure StaStats where
  collisionsLike : Nat := 0
  finalFailures : Nat := 0
  phyTxDrops : Nat := 0
  qBytesSum : Nat := 0
  qSamples : Nat := 0
  heSuTxMpdu : Nat := 0
  heTbTxMpdu : Nat := 0
  heSuTxBytes : Nat := 0
  heTbTxBytes : Nat := 0
  deriving DecidableEq, Repr

/-- State of one `PoissonUdpApp`.  `pending` models `m_sendEvent.IsPending()`
(at most one outstanding send event); `txLog` records the sizes of the
packets handed to `m_socket->Send`, in order; `socketOpen` models whether
the socket has been closed.  The exponential RNG draw only chooses the
delay of the next event, which an untimed event model need not track. -/
structure AppState where
  pktSize : Nat
  lambda : ℚ
  maxPackets : Nat
  sent : Nat
  running : Bool
  pending : Bool
  socketOpen : Bool
  txLog : List Nat
  deriving DecidableEq, Repr

/-- Embeds `PoissonUdpApp::Setup` (constructed idle, counters zeroed). -/
def setup (pktSize : Nat) (lambda : ℚ) (maxPackets : Nat) : AppState :=
  { pktSize := pktSize
    lambda := lambda
    maxPackets := maxPackets
    sent := 0
    running := false
    pending := false
    socketOpen := true
    txLog := [] }

/-- Embeds `PoissonUdpApp::ScheduleNext`: if not running or `m_lambda <= 0`,
schedules nothing; otherwise schedules the next `SendOnce` (the send event
becomes pending). -/
def scheduleNext (s : AppState) : AppState :=
  if s.running = false then s
  else if s.lambda ≤ 0 then s
  else { s with pending := true }

/-- Embeds `PoissonUdpApp::StartApplication`: sets running, binds/connects
the socket, and calls `ScheduleNext`. -/
def startApplication (s : AppState) : AppState :=
  scheduleNext { s with running := true }

/-- Embeds `PoissonUdpApp::StopApplication`: clears running, cancels a
pending send event, closes the socket. -/
def stopApplication (s : AppState) : AppState :=
  { s with running := false, pending := false, socketOpen := false }

/-- Embeds the body of `PoissonUdpApp::SendOnce`: no-op when not running;
no-op when the cap is set (`m_maxPackets != 0`) and reached
(`m_sent >= m_maxPackets`); otherwise send one packet of `m_pktSize`
bytes, increment `m_sent`, and call `ScheduleNext`. -/
def sendOnce (s : AppState) : AppState :=
  if s.running = false then s
  else if s.maxPackets ≠ 0 ∧ s.maxPackets ≤ s.sent then s
  else scheduleNext { s with sent := s.sent + 1, txLog := s.txLog ++ [s.pktSize] }

/-- One step of the simulator's event loop as seen by one app: the only
event the queue can deliver to the app is its own pending send event;
delivering it consumes the pending handle and runs the `SendOnce` body. -/
inductive Step : AppState → AppState → Prop where
  | fire (s : AppState) (h : s.pending = true) :
      Step s (sendOnce { s with pending := false })

/-- Zero or more delivered events. -/
def Steps : AppState → AppState → Prop :=
  Relation.ReflTransGen Step

theorem steps_refl (s : AppState) : Steps s s :=
  Relation.ReflTransGen.refl

/-- A stopped app has no pending event, so the event loop cannot move it. -/
theorem no_step_of_not_pending {s t : AppState} (hp : s.pending = false) :
    ¬ Step s t := by
  intro hstep
  cases hstep with
  | fire h => rw [hp] at h; exact Bool.false_ne_true h

theorem steps_eq_of_not_pending {s t : AppState} (hp : s.pending = false)
    (h : Steps s t) : t = s := by
  induction h using Relation.ReflTransGen.head_induction_on with
  | refl => rfl
  | head hstep _ _ => exact absurd hstep (no_step_of_not_pending hp)

/-- C1.  After `StopApplication` the source is not running, no send event
is pending, and along any continuation of the event loop the state never
changes again: no `SendOnce` executes and the sent-count stays at its
value at the moment of the stop. -/
theorem stop_then_no_further_sends (s t : AppState)
    (h : Steps (stopApplication s) t) :
    t = stopApplication s ∧ t.running = false ∧ t.pending = false ∧
      t.sent = s.sent := by
  have heq : t = stopApplication s := steps_eq_of_not_pending rfl h
  subst heq
  exact ⟨rfl, rfl, rfl, rfl⟩

/-- Witness for C1 at a concrete app state. -/
theorem stop_then_no_further_sends_witness :
    (stopApplication (startApplication (setup 1200 100 0))).sent =
      (startApplication (setup 1200 100 0)).sent ∧
    (stopApplication (startApplication (setup 1200 100 0))).running = false :=
  ⟨(stop_then_no_further_sends (startApplication (setup 1200 100 0)) _
      (steps_refl _)).2.2.2,
   (stop_then_no_further_sends (startApplication (setup 1200 100 0)) _
      (steps_refl _)).2.1⟩

/-- `ScheduleNext` never changes the configured rate. -/
theorem scheduleNext_lambda (s : AppState) : (scheduleNext s).lambda = s.lambda := by
  unfold scheduleNext
  split_ifs <;> rfl

/-- A source with non-positive rate never schedules: `ScheduleNext` is the
identity on it. -/
theorem scheduleNext_of_nonpos {s : AppState} (h : s.lambda ≤ 0) :
    scheduleNext s = s := by
  unfold scheduleNext
  split_ifs <;> rfl

/-- If `ScheduleNext` turned a non-pending state into a pending one, the
rate is positive. -/
theorem scheduleNext_pending_pos {s : AppState} (hp : s.pending = false)
    (h : (scheduleNext s).pending = true) : 0 < s.lambda := by
  unfold scheduleNext at h
  split_ifs at h with h1 h2
  · rw [hp] at h; exact absurd h Bool.false_ne_true
  · rw [hp] at h; exact absurd h Bool.false_ne_true
  · exact not_le.mp h2

/-- The simulator only ever has a pending send event for an app whose rate
is positive: reachable states satisfy `pending → 0 < lambda`. -/
def ReachableApp (s : AppState) : Prop :=
  ∃ p lam m, Steps (startApplication (setup p lam m)) s

theorem start_pending_lambda_pos {p m : Nat} {lam : ℚ}
    (h : (startApplication (setup p lam m)).pending = true) :
    0 < (startApplication (setup p lam m)).lambda := by
  unfold startApplication
  rw [scheduleNext_lambda]
  exact scheduleNext_pending_pos rfl h

theorem sendOnce_pending_lambda_pos {s : AppState} (hp : s.pending = false)
    (h : (sendOnce s).pending = true) : 0 < (sendOnce s).lambda := by
  unfold sendOnce at *
  split_ifs at *
  · rw [hp] at h; exact absurd h Bool.false_ne_true
  · rw [hp] at h; exact absurd h Bool.false_ne_true
  · rw [scheduleNext_lambda]
    exact scheduleNext_pending_pos hp h

theorem reachable_pending_lambda_pos {s : AppState} (h : ReachableApp s)
    (hp : s.pending = true) : 0 < s.lambda := by
  obtain ⟨p, lam, m, hsteps⟩ := h
  induction hsteps with
  | refl => exact start_pending_lambda_pos hp
  | tail _ hstep _ =>
      cases hstep with
      | fire _ => exact sendOnce_pending_lambda_pos rfl hp

/-- C2.  One delivery of the send event to a Running source: if the cap is
set and reached, the state is unchanged apart from consuming the fired
event handle (nothing sent, nothing scheduled); otherwise exactly one
packet of `pktSize` bytes is transmitted, `sent` grows by one, and the
next send is scheduled (pending again). -/
theorem sendOnce_running_behavior (s t : AppState)
    (hreach : ReachableApp s) (hrun : s.running = true) (hstep : Step s t) :
    (s.maxPackets ≠ 0 ∧ s.maxPackets ≤ s.sent →
        t = { s with pending := false }) ∧
    (¬ (s.maxPackets ≠ 0 ∧ s.maxPackets ≤ s.sent) →
        t = { s with
              sent := s.sent + 1
              txLog := s.txLog ++ [s.pktSize]
              pending := true }) := by
  cases hstep with
  | fire hpend =>
      have hlam : 0 < s.lambda := reachable_pending_lambda_pos hreach hpend
      refine ⟨fun hcap => ?_, fun hcap => ?_⟩
      · show sendOnce { s with pending := false } = _
        unfold sendOnce
        rw [if_neg (by simp [hrun]), if_pos hcap]
      · show sendOnce { s with pending := false } = _
        unfold sendOnce
        rw [if_neg (by simp [hrun]), if_neg hcap]
        unfold scheduleNext
        rw [if_neg (by simp [hrun]), if_neg (not_le.mpr hlam)]

/-- Witness for C2 at a concrete reachable running state (uncapped). -/
theorem sendOnce_running_behavior_witness :
    (sendOnce { startApplication (setup 1200 100 0) with
        pending := false }).sent = 1 := by
  have h := sendOnce_running_behavior (startApplication (setup 1200 100 0)) _
      ⟨1200, 100, 0, steps_refl _⟩ (by decide)
      (Step.fire _ (by decide))
  rw [h.2 (by decide)]
  decide

/-- C3.  A source with rate ≤ 0, once started, schedules nothing
(`ScheduleNext` is a no-op on every reachable state), and its sent-count
stays 0 no matter how long the run lasts. -/
theorem nonpositive_rate_idle (p m : Nat) (lam : ℚ) (t : AppState)
    (hlam : lam ≤ 0) (h : Steps (startApplication (setup p lam m)) t) :
    scheduleNext t = t ∧ t.sent = 0 ∧ t.pending = false := by
  have hs1 : startApplication (setup p lam m) =
      { setup p lam m with running := true } := by
    unfold startApplication
    exact scheduleNext_of_nonpos hlam
  rw [hs1] at h
  have heq : t = { setup p lam m with running := true } :=
    steps_eq_of_not_pending rfl h
  subst heq
  exact ⟨scheduleNext_of_nonpos hlam, rfl, rfl⟩

/-- Witness for C3 at rate 0. -/
theorem nonpositive_rate_idle_witness :
    (startApplication (setup 1200 0 0)).sent = 0 ∧
    scheduleNext (startApplication (setup 1200 0 0)) =
      startApplication (setup 1200 0 0) := by
  have h := nonpositive_rate_idle 1200 0 0 (startApplication (setup 1200 0 0))
      le_rfl (steps_refl _)
  exact ⟨h.2.1, h.1⟩

/-- Embeds the lambda-assignment block of `main`: if the parsed rate list
is nonempty, station `i` of the `nLegacy + mHe` stations gets `parsed[i]`
when `i < parsed.size()` and `parsed.back()` otherwise; with an empty
list, indices below `nLegacy` get `lambdaLegacy` and the rest `lambdaHe`. -/
def assignLambdas (nLegacy mHe : Nat) (parsed : List ℚ)
    (lambdaLegacy lambdaHe : ℚ) : List ℚ :=
  if parsed.isEmpty = false then
    (List.range (nLegacy + mHe)).map
      (fun i => if i < parsed.length then parsed.getD i 0 else parsed.getLastD 0)
  else
    (List.range (nLegacy + mHe)).map
      (fun i => if i < nLegacy then lambdaLegacy else lambdaHe)

/-- C4.  With a nonempty explicit rate list, the assigned vector has length
`N = nLegacy + mHe` and value `list[i]` at every `i < list.length`, the
list's last element at every other `i < N` (last-value extension). -/
theorem lambda_assignment_explicit_list (nLegacy mHe : Nat) (parsed : List ℚ)
    (lambdaLegacy lambdaHe : ℚ) (hne : parsed ≠ []) :
    (assignLambdas nLegacy mHe parsed lambdaLegacy lambdaHe).length =
        nLegacy + mHe ∧
    ∀ i, i < nLegacy + mHe →
      (assignLambdas nLegacy mHe parsed lambdaLegacy lambdaHe).getD i 0 =
        if i < parsed.length then parsed.getD i 0 else parsed.getLastD 0 := by
  have hcond : parsed.isEmpty = false := by
    simpa [List.isEmpty_iff] using hne
  constructor
  · simp [assignLambdas, hcond]
  · intro i hi
    simp [assignLambdas, hcond, List.getD_eq_getElem?_getD, List.getElem?_map,
      List.getElem?_range, hi]

/-- Witness for C4: the spec's example `[50, 80]`, `nLegacy = 1`, `mHe = 3`
yields `[50, 80, 80, 80]`. -/
theorem lambda_assignment_explicit_list_witness :
    assignLambdas 1 3 [50, 80] 1000 1000 = [50, 80, 80, 80] ∧
    (assignLambdas 1 3 [50, 80] 1000 1000).getD 3 0 =
      (if 3 < ([50, 80] : List ℚ).length then ([50, 80] : List ℚ).getD 3 0
       else ([50, 80] : List ℚ).getLastD 0) :=
  ⟨by decide,
   (lambda_assignment_explicit_list 1 3 [50, 80] 1000 1000 (by decide)).2 3
     (by decide)⟩

/-- C5.  With no explicit rate list, indices `[0, nLegacy)` get the legacy
default rate and indices `[nLegacy, N)` the scheduled (HE) default. -/
theorem lambda_assignment_defaults (nLegacy mHe : Nat)
    (lambdaLegacy lambdaHe : ℚ) :
    (assignLambdas nLegacy mHe [] lambdaLegacy lambdaHe).length =
        nLegacy + mHe ∧
    ∀ i, i < nLegacy + mHe →
      (assignLambdas nLegacy mHe [] lambdaLegacy lambdaHe).getD i 0 =
        if i < nLegacy then lambdaLegacy else lambdaHe := by
  constructor
  · simp [assignLambdas]
  · intro i hi
    simp [assignLambdas, List.getD_eq_getElem?_getD, List.getElem?_map,
      List.getElem?_range, hi]

/-- Witness for C5: the spec's example `nLegacy = 2`, `mHe = 1`,
defaults `100` and `200`, yields `[100, 100, 200]`. -/
theorem lambda_assignment_defaults_witness :
    assignLambdas 2 1 [] 100 200 = [100, 100, 200] ∧
    (assignLambdas 2 1 [] 100 200).getD 2 0 =
      (if 2 < 2 then (100 : ℚ) else 200) :=
  ⟨by decide, (lambda_assignment_defaults 2 1 100 200).2 2 (by decide)⟩

/-- Value of a digit string, most significant first. -/
def digitsVal (cs : List Char) : Nat :=
  cs.foldl (fun acc c => acc * 10 + (c.toNat - Char.toNat '0')) 0

/-- Models `std::stod` on the plain decimal format: leading whitespace is
skipped, an optional sign follows, then the number needs at least one
digit in its integer or fractional part.  `std::stod` throws
`std::invalid_argument` — modelled by `none` — exactly when no conversion
can be performed.  (Exponent, hexfloat and inf/nan forms, irrelevant to
packet rates, are not modelled.) -/
def stodModel (s : String) : Option ℚ :=
  let cs0 := s.toList.dropWhile Char.isWhitespace
  let signed : ℚ × List Char :=
    match cs0 with
    | '-' :: rest => (-1, rest)
    | '+' :: rest => (1, rest)
    | rest => (1, rest)
  let intPart := signed.2.takeWhile Char.isDigit
  let rest := signed.2.dropWhile Char.isDigit
  let fracPart :=
    match rest with
    | '.' :: tail => tail.takeWhile Char.isDigit
    | _ => []
  if intPart.isEmpty ∧ fracPart.isEmpty then none
  else
    some (signed.1 * ((digitsVal intPart : ℚ) +
      (digitsVal fracPart : ℚ) / ((10 : ℚ) ^ fracPart.length)))

/-- One iteration of the `ParseCsvDoubles` loop body on one comma-separated
item: an already-raised exception propagates; an empty item is skipped;
otherwise `std::stod` either extends the vector or raises. -/
def parseStep (acc : Option (List ℚ)) (item : String) : Option (List ℚ) :=
  match acc with
  | none => none
  | some out =>
      if item.isEmpty then some out
      else
        match stodModel item with
        | none => none
        | some v => some (out ++ [v])

/-- Chunks of a character sequence between commas (`n` commas give `n + 1`
chunks, some possibly empty). -/
def splitOnComma : List Char → List (List Char)
  | [] => [[]]
  | c :: cs =>
      let r := splitOnComma cs
      if c = ',' then [] :: r
      else (c :: r.headI) :: r.tail

/-- The items yielded by the `std::getline(ss, item, ',')` loop of
`ParseCsvDoubles`: the chunks between commas, except that when the stream
is exhausted right after the final comma (or the input is empty) the
last, empty chunk is never read by `getline`. -/
def getlineItems (s : String) : List String :=
  let chunks := splitOnComma s.toList
  (if (chunks.getLastD []).isEmpty then chunks.dropLast else chunks).map
    (fun cs => String.mk cs)

/-- Embeds `ParseCsvDoubles`: empty input gives an empty vector; otherwise
the input is split at commas, empty items are skipped, and `std::stod`
converts each remaining item.  An uncaught `std::invalid_argument` from
`std::stod` aborts the whole parse (`none`). -/
def parseCsvDoubles (s : String) : Option (List ℚ) :=
  if s.isEmpty then some []
  else (getlineItems s).foldl parseStep (some [])

theorem foldl_parseStep_none (l : List String) :
    l.foldl parseStep none = none := by
  induction l with
  | nil => rfl
  | cons a l ih => exact ih

theorem foldl_parseStep_bad {item : String} (hne : item.isEmpty = false)
    (hbad : stodModel item = none) :
    ∀ l : List String, item ∈ l → ∀ acc, l.foldl parseStep acc = none := by
  intro l
  induction l with
  | nil => intro h; exact absurd h (List.not_mem_nil _)
  | cons a l ih =>
      intro hmem acc
      rcases List.mem_cons.mp hmem with heq | hmem
      · subst heq
        show l.foldl parseStep (parseStep acc item) = none
        cases acc with
        | none => exact foldl_parseStep_none l
        | some out =>
            have hstep : parseStep (some out) item = none := by
              simp [parseStep, hne, hbad]
            rw [hstep]
            exact foldl_parseStep_none l
      · exact ih hmem _

/-- C6.  If any (nonempty) comma-separated item of the rate-list string
cannot be converted by `std::stod`, `ParseCsvDoubles` does not produce a
rate vector: the exception propagates out of the parse. -/
theorem parse_nonnumeric_fails (s item : String)
    (hmem : item ∈ getlineItems s) (hne : item.isEmpty = false)
    (hbad : stodModel item = none) :
    parseCsvDoubles s = none := by
  unfold parseCsvDoubles
  split_ifs with hs
  · exfalso
    have hnil : s = "" := (String.isEmpty_iff s).mp hs
    subst hnil
    have hitems : getlineItems "" = [] := rfl
    rw [hitems] at hmem
    exact absurd hmem (List.not_mem_nil _)
  · exact foldl_parseStep_bad hne hbad _ hmem _

/-- Witness for C6 on the concrete malformed list `"50,abc,80"`. -/
theorem parse_nonnumeric_fails_witness : parseCsvDoubles "50,abc,80" = none :=
  parse_nonnumeric_fails "50,abc,80" "abc" (by decide) rfl (by decide)

/-- In-place mutation of one entry of the pre-sized counter table,
`(*stats)[staIndex] = f((*stats)[staIndex])`. -/
def updateAt (stats : List StaStats) (staIndex : Nat)
    (f : StaStats → StaStats) : List StaStats :=
  stats.set staIndex (f (stats.getD staIndex {}))

/-- Embeds `OnMacTxDataFailed`: `collisionsLike++` for the bound station. -/
def onMacTxDataFailed (staIndex : Nat) (stats : List StaStats) :
    List StaStats :=
  updateAt stats staIndex
    (fun r => { r with collisionsLike := r.collisionsLike + 1 })

/-- Embeds `OnMacTxFinalDataFailed`: `finalFailures++`. -/
def onMacTxFinalDataFailed (staIndex : Nat) (stats : List StaStats) :
    List StaStats :=
  updateAt stats staIndex
    (fun r => { r with finalFailures := r.finalFailures + 1 })

/-- Embeds `OnPhyTxDrop`: `phyTxDrops++`. -/
def onPhyTxDrop (staIndex : Nat) (stats : List StaStats) : List StaStats :=
  updateAt stats staIndex
    (fun r => { r with phyTxDrops := r.phyTxDrops + 1 })

/-- The ns-3 `WifiPreambleType` values, as matched by `OnHePhyTxMonitor`. -/
inductive WifiPreamble where
  | long
  | short
  | htMf
  | vhtSu
  | vhtMu
  | dmgCtrl
  | dmgSc
  | dmgOfdm
  | heSu
  | heErSu
  | heMu
  | heTb
  | ehtMu
  deriving DecidableEq, Repr

/-- `p ? p->GetSize() : 0`: a null packet counts zero bytes. -/
def packetBytes : Option Nat → Nat
  | some sz => sz
  | none => 0

/-- Embeds `OnHePhyTxMonitor`: an HE TB (trigger-based, i.e. scheduled
multi-user) preamble bumps the TB MPDU count and bytes, an HE SU preamble
the SU counterparts, and any other preamble changes nothing. -/
def onHePhyTxMonitor (staIndex : Nat) (stats : List StaStats)
    (p : Option Nat) (pre : WifiPreamble) : List StaStats :=
  if pre = WifiPreamble.heTb then
    updateAt stats staIndex (fun r =>
      { r with
        heTbTxMpdu := r.heTbTxMpdu + 1
        heTbTxBytes := r.heTbTxBytes + packetBytes p })
  else if pre = WifiPreamble.heSu then
    updateAt stats staIndex (fun r =>
      { r with
        heSuTxMpdu := r.heSuTxMpdu + 1
        heSuTxBytes := r.heSuTxBytes + packetBytes p })
  else stats

/-- Embeds the counter mutation of `SampleQueue` (its self-rescheduling is
part of the event wiring, not of the table update): `qBytesSum += qBytes`
and `qSamples++`. -/
def onSampleQueue (staIndex : Nat) (stats : List StaStats) (qBytes : Nat) :
    List StaStats :=
  updateAt stats staIndex (fun r =>
    { r with qBytesSum := r.qBytesSum + qBytes, qSamples := r.qSamples + 1 })

theorem length_updateAt (stats : List StaStats) (i : Nat)
    (f : StaStats → StaStats) : (updateAt stats i f).length = stats.length :=
  List.length_set stats i _

theorem getD_updateAt_self {stats : List StaStats} {i : Nat}
    (h : i < stats.length) (f : StaStats → StaStats) :
    (updateAt stats i f).getD i {} = f (stats.getD i {}) := by
  unfold updateAt
  rw [List.getD_eq_getElem?_getD, List.getElem?_set_eq_of_lt _ h]
  rfl

theorem getD_updateAt_ne {stats : List StaStats} {i j : Nat} (hne : j ≠ i)
    (f : StaStats → StaStats) :
    (updateAt stats i f).getD j {} = stats.getD j {} := by
  unfold updateAt
  rw [List.getD_eq_getElem?_getD, List.getElem?_set_ne (Ne.symm hne)]
  exact (List.getD_eq_getElem?_getD stats j _).symm

/-- C7.  One `OnFrameTransmitted` notification for station `staIndex`
carrying a frame of `sz` bytes: an HE TB (scheduled multi-user) tag bumps
that station's TB frame count by 1 and its TB bytes by `sz` and leaves
every other field and every other station untouched; an HE SU tag does
the same to the SU counters; any other tag changes no counter at all. -/
theorem frame_classification (staIndex : Nat) (stats : List StaStats)
    (sz : Nat) (pre : WifiPreamble) (h : staIndex < stats.length) :
    (pre = WifiPreamble.heTb →
        (onHePhyTxMonitor staIndex stats (some sz) pre).getD staIndex {} =
          { stats.getD staIndex {} with
            heTbTxMpdu := (stats.getD staIndex {}).heTbTxMpdu + 1
            heTbTxBytes := (stats.getD staIndex {}).heTbTxBytes + sz } ∧
        ∀ j, j ≠ staIndex →
          (onHePhyTxMonitor staIndex stats (some sz) pre).getD j {} =
            stats.getD j {}) ∧
    (pre = WifiPreamble.heSu →
        (onHePhyTxMonitor staIndex stats (some sz) pre).getD staIndex {} =
          { stats.getD staIndex {} with
            heSuTxMpdu := (stats.getD staIndex {}).heSuTxMpdu + 1
            heSuTxBytes := (stats.getD staIndex {}).heSuTxBytes + sz } ∧
        ∀ j, j ≠ staIndex →
          (onHePhyTxMonitor staIndex stats (some sz) pre).getD j {} =
            stats.getD j {}) ∧
    (pre ≠ WifiPreamble.heTb → pre ≠ WifiPreamble.heSu →
        onHePhyTxMonitor staIndex stats (some sz) pre = stats) := by
  refine ⟨fun hpre => ?_, fun hpre => ?_, fun h1 h2 => ?_⟩
  · subst hpre
    unfold onHePhyTxMonitor
    rw [if_pos rfl]
    exact ⟨getD_updateAt_self h _, fun j hj => getD_updateAt_ne hj _⟩
  · subst hpre
    unfold onHePhyTxMonitor
    rw [if_neg (by simp), if_pos rfl]
    exact ⟨getD_updateAt_self h _, fun j hj => getD_updateAt_ne hj _⟩
  · unfold onHePhyTxMonitor
    rw [if_neg h1, if_neg h2]

/-- Witness for C7: an HE TB frame of 500 bytes for station 1 of two. -/
theorem frame_classification_witness :
    (onHePhyTxMonitor 1 [{}, {}] (some 500) WifiPreamble.heTb).getD 1 {} =
      { ({} : StaStats) with
        heTbTxMpdu := ({} : StaStats).heTbTxMpdu + 1
        heTbTxBytes := ({} : StaStats).heTbTxBytes + 500 } ∧
    (onHePhyTxMonitor 1 [{}, {}] (some 500) WifiPreamble.heTb).getD 0 {} =
      ([{}, {}] : List StaStats).getD 0 {} := by
  have h := frame_classification 1 [{}, {}] 500 WifiPreamble.heTb (by decide)
  exact ⟨(h.1 rfl).1, (h.1 rfl).2 0 (by decide)⟩

/-- C9.  For a station index inside the pre-allocated table, each failure
and drop handler bumps exactly its own counter of exactly that station's
record by 1, leaves every other field and every other station's record
unchanged, and never resizes the table. -/
theorem failure_handlers_increment (staIndex : Nat) (stats : List StaStats)
    (h : staIndex < stats.length) :
    ((onMacTxDataFailed staIndex stats).length = stats.length ∧
      (onMacTxDataFailed staIndex stats).getD staIndex {} =
        { stats.getD staIndex {} with
          collisionsLike := (stats.getD staIndex {}).collisionsLike + 1 } ∧
      ∀ j, j ≠ staIndex →
        (onMacTxDataFailed staIndex stats).getD j {} = stats.getD j {}) ∧
    ((onMacTxFinalDataFailed staIndex stats).length = stats.length ∧
      (onMacTxFinalDataFailed staIndex stats).getD staIndex {} =
        { stats.getD staIndex {} with
          finalFailures := (stats.getD staIndex {}).finalFailures + 1 } ∧
      ∀ j, j ≠ staIndex →
        (onMacTxFinalDataFailed staIndex stats).getD j {} = stats.getD j {}) ∧
    ((onPhyTxDrop staIndex stats).length = stats.length ∧
      (onPhyTxDrop staIndex stats).getD staIndex {} =
        { stats.getD staIndex {} with
          phyTxDrops := (stats.getD staIndex {}).phyTxDrops + 1 } ∧
      ∀ j, j ≠ staIndex →
        (onPhyTxDrop staIndex stats).getD j {} = stats.getD j {}) :=
  ⟨⟨length_updateAt stats staIndex _, getD_updateAt_self h _,
      fun _ hj => getD_updateAt_ne hj _⟩,
    ⟨length_updateAt stats staIndex _, getD_updateAt_self h _,
      fun _ hj => getD_updateAt_ne hj _⟩,
    ⟨length_updateAt stats staIndex _, getD_updateAt_self h _,
      fun _ hj => getD_updateAt_ne hj _⟩⟩

/-- Witness for C9 on a two-station table at index 0. -/
theorem failure_handlers_increment_witness :
    (onMacTxDataFailed 0 [{}, {}]).length = 2 ∧
    (onMacTxDataFailed 0 [{}, {}]).getD 0 {} =
      { ([{}, {}] : List StaStats).getD 0 {} with
        collisionsLike := (([{}, {}] : List StaStats).getD 0 {}).collisionsLike
          + 1 } ∧
    (onMacTxFinalDataFailed 0 [{}, {}]).getD 1 {} =
      ([{}, {}] : List StaStats).getD 1 {} := by
  have h := failure_handlers_increment 0 [{}, {}] (by decide)
  exact ⟨h.1.1, h.1.2.1, h.2.1.2.2 1 (by decide)⟩

/-- One line of the plain-text report printed by the results loop of
`main`. -/
structure StaReport where
  staId : Nat
  isLegacy : Bool
  lambda : ℚ
  thrMbps : ℚ
  avgQ : ℚ
  macTxDataFailed : Nat
  macTxFinalDataFailed : Nat
  phyTxDrop : Nat
  heSuTxMpdu : Nat
  heTbTxMpdu : Nat
  heSuTxBytes : Nat
  heTbTxBytes : Nat
  deriving DecidableEq, Repr, Inhabited

/-- Embeds the results loop of `main` (`measuredInterval = simTime`):
`thrMbps = rxBytes * 8.0 / (measuredInterval * 1e6)` and
`avgQ = qSamples > 0 ? qBytesSum / qSamples : 0.0` per station. -/
def resultsLoop (nLegacy nTotal : Nat) (simTime : ℚ) (rxBytes : Nat → Nat)
    (lambdas : List ℚ) (stats : List StaStats) : List StaReport :=
  (List.range nTotal).map (fun i =>
    let st := stats.getD i {}
    { staId := i
      isLegacy := decide (i < nLegacy)
      lambda := lambdas.getD i 0
      thrMbps := (rxBytes i * 8) / (simTime * 1000000)
      avgQ := if 0 < st.qSamples then (st.qBytesSum : ℚ) / st.qSamples else 0
      macTxDataFailed := st.collisionsLike
      macTxFinalDataFailed := st.finalFailures
      phyTxDrop := st.phyTxDrops
      heSuTxMpdu := st.heSuTxMpdu
      heTbTxMpdu := st.heTbTxMpdu
      heSuTxBytes := st.heSuTxBytes
      heTbTxBytes := st.heTbTxBytes })

/-- Modelled from the spec: throughput (Mbps) =
receivedBytes × 8 / (intervalSeconds × 1e6). -/
def specThroughputMbps (receivedBytes : Nat) (intervalSeconds : ℚ) : ℚ :=
  (receivedBytes * 8) / (intervalSeconds * 1000000)

/-- Modelled from the spec: average queue occupancy (bytes) =
queue-byte-sum / queue-sample-count if the count is positive, else 0. -/
def specAvgQueue (qBytesSum qSamples : Nat) : ℚ :=
  if 0 < qSamples then (qBytesSum : ℚ) / qSamples else 0

/-- C8.  Every station's reported throughput and average queue occupancy
equal the spec formulas, and a station with zero queue samples reports
average occupancy exactly 0 (the guard, not a division by zero). -/
theorem result_reducer_formulas (nLegacy nTotal : Nat) (simTime : ℚ)
    (rxBytes : Nat → Nat) (lambdas : List ℚ) (stats : List StaStats)
    (i : Nat) (hi : i < nTotal) :
    ((resultsLoop nLegacy nTotal simTime rxBytes lambdas stats).getD i
        default).thrMbps = specThroughputMbps (rxBytes i) simTime ∧
    ((resultsLoop nLegacy nTotal simTime rxBytes lambdas stats).getD i
        default).avgQ =
      specAvgQueue (stats.getD i {}).qBytesSum (stats.getD i {}).qSamples ∧
    ((stats.getD i {}).qSamples = 0 →
      ((resultsLoop nLegacy nTotal simTime rxBytes lambdas stats).getD i
          default).avgQ = 0) := by
  rw [resultsLoop, List.getD_eq_getElem?_getD, List.getElem?_map,
    List.getElem?_range hi]
  refine ⟨rfl, rfl, fun h0 => ?_⟩
  show (if 0 < (stats.getD i {}).qSamples then _ else (0 : ℚ)) = 0
  rw [h0, if_neg (lt_irrefl 0)]

/-- Witness for C8: the spec's end-to-end example, 1,200,000 received
bytes over 10 s, reports 0.96 Mbps, and zero samples report avgQ = 0. -/
theorem result_reducer_formulas_witness :
    ((resultsLoop 1 1 10 (fun _ => 1200000) [100] [{}]).getD 0
        default).thrMbps = specThroughputMbps 1200000 10 ∧
    ((resultsLoop 1 1 10 (fun _ => 1200000) [100] [{}]).getD 0
        default).avgQ = 0 ∧
    specThroughputMbps 1200000 10 = 96 / 100 := by
  have h := result_reducer_formulas 1 1 10 (fun _ => 1200000) [100] [{}] 0
    (by decide)
  refine ⟨h.1, h.2.2 rfl, ?_⟩
  show ((1200000 : ℚ) * 8) / (10 * 1000000) = 96 / 100
  norm_num

/-- One notification delivered by the simulator to the statistics layer
during a run. -/
inductive TraceEvent where
  | macTxDataFailed (staIndex : Nat)
  | macTxFinalDataFailed (staIndex : Nat)
  | phyTxDrop (staIndex : Nat)
  | heMonitor (staIndex : Nat) (p : Option Nat) (pre : WifiPreamble)
  | queueSample (staIndex : Nat) (qBytes : Nat)
  deriving DecidableEq, Repr

/-- The notifications the trace wiring of `main` can actually deliver:
every hook is bound with a station index below `nTotal`, and the
`MonitorSnifferTx` hook that feeds `OnHePhyTxMonitor` is connected only
for the HE stations (`i >= nLegacy`). -/
def wired (nLegacy nTotal : Nat) : TraceEvent → Bool
  | .macTxDataFailed i => decide (i < nTotal)
  | .macTxFinalDataFailed i => decide (i < nTotal)
  | .phyTxDrop i => decide (i < nTotal)
  | .heMonitor i _ _ => decide (nLegacy ≤ i ∧ i < nTotal)
  | .queueSample i _ => decide (i < nTotal)

/-- Dispatch of one delivered notification to its handler. -/
def applyEvent (stats : List StaStats) : TraceEvent → List StaStats
  | .macTxDataFailed i => onMacTxDataFailed i stats
  | .macTxFinalDataFailed i => onMacTxFinalDataFailed i stats
  | .phyTxDrop i => onPhyTxDrop i stats
  | .heMonitor i p pre => onHePhyTxMonitor i stats p pre
  | .queueSample i q => onSampleQueue i stats q

/-- A whole run's worth of notifications, applied in delivery order. -/
def runEvents (events : List TraceEvent) (stats : List StaStats) :
    List StaStats :=
  events.foldl applyEvent stats

/-- The table `std::vector<StaStats> stats(nTotal)`: `nTotal`
value-initialised (all-zero) records. -/
def initialStats (nTotal : Nat) : List StaStats :=
  List.replicate nTotal {}

/-- Every legacy station's HE frame counters and byte totals are zero. -/
def LegacyHeFree (nLegacy : Nat) (stats : List StaStats) : Prop :=
  ∀ i, i < nLegacy →
    (stats.getD i {}).heSuTxMpdu = 0 ∧ (stats.getD i {}).heTbTxMpdu = 0 ∧
    (stats.getD i {}).heSuTxBytes = 0 ∧ (stats.getD i {}).heTbTxBytes = 0

theorem getD_updateAt_cases (stats : List StaStats) (i j : Nat)
    (f : StaStats → StaStats) :
    (updateAt stats i f).getD j {} = f (stats.getD j {}) ∨
    (updateAt stats i f).getD j {} = stats.getD j {} := by
  by_cases hj : j = i
  · subst hj
    by_cases hlt : j < stats.length
    · exact Or.inl (getD_updateAt_self hlt f)
    · right
      unfold updateAt
      rw [List.set_eq_of_length_le (Nat.le_of_not_lt hlt)]
  · exact Or.inr (getD_updateAt_ne hj f)

theorem legacyHeFree_updateAt {nLegacy : Nat} {stats : List StaStats}
    (hs : LegacyHeFree nLegacy stats) (i : Nat) (f : StaStats → StaStats)
    (hf : ∀ r, (f r).heSuTxMpdu = r.heSuTxMpdu ∧
      (f r).heTbTxMpdu = r.heTbTxMpdu ∧
      (f r).heSuTxBytes = r.heSuTxBytes ∧
      (f r).heTbTxBytes = r.heTbTxBytes) :
    LegacyHeFree nLegacy (updateAt stats i f) := by
  intro j hj
  obtain ⟨h1, h2, h3, h4⟩ := hs j hj
  rcases getD_updateAt_cases stats i j f with h | h
  · rw [h]
    obtain ⟨g1, g2, g3, g4⟩ := hf (stats.getD j {})
    exact ⟨g1.trans h1, g2.trans h2, g3.trans h3, g4.trans h4⟩
  · rw [h]
    exact ⟨h1, h2, h3, h4⟩

theorem legacyHeFree_updateAt_ge {nLegacy : Nat} {stats : List StaStats}
    (hs : LegacyHeFree nLegacy stats) {i : Nat} (hi : nLegacy ≤ i)
    (f : StaStats → StaStats) :
    LegacyHeFree nLegacy (updateAt stats i f) := by
  intro j hj
  have hne : j ≠ i := by omega
  rw [getD_updateAt_ne hne]
  exact hs j hj

theorem applyEvent_preserves (nLegacy nTotal : Nat) (e : TraceEvent)
    (he : wired nLegacy nTotal e = true) (stats : List StaStats)
    (hs : LegacyHeFree nLegacy stats) :
    LegacyHeFree nLegacy (applyEvent stats e) := by
  cases e with
  | macTxDataFailed i =>
      exact legacyHeFree_updateAt hs i
        (fun r => { r with collisionsLike := r.collisionsLike + 1 })
        (fun r => ⟨rfl, rfl, rfl, rfl⟩)
  | macTxFinalDataFailed i =>
      exact legacyHeFree_updateAt hs i
        (fun r => { r with finalFailures := r.finalFailures + 1 })
        (fun r => ⟨rfl, rfl, rfl, rfl⟩)
  | phyTxDrop i =>
      exact legacyHeFree_updateAt hs i
        (fun r => { r with phyTxDrops := r.phyTxDrops + 1 })
        (fun r => ⟨rfl, rfl, rfl, rfl⟩)
  | heMonitor i p pre =>
      have hi : nLegacy ≤ i := by
        have := of_decide_eq_true he
        exact this.1
      show LegacyHeFree nLegacy (onHePhyTxMonitor i stats p pre)
      unfold onHePhyTxMonitor
      split_ifs
      · exact legacyHeFree_updateAt_ge hs hi _
      · exact legacyHeFree_updateAt_ge hs hi _
      · exact hs
  | queueSample i q =>
      exact legacyHeFree_updateAt hs i
        (fun r => { r with
          qBytesSum := r.qBytesSum + q
          qSamples := r.qSamples + 1 })
        (fun r => ⟨rfl, rfl, rfl, rfl⟩)

theorem runEvents_preserves (nLegacy nTotal : Nat)
    (events : List TraceEvent)
    (hw : ∀ e ∈ events, wired nLegacy nTotal e = true)
    (stats : List StaStats) (hs : LegacyHeFree nLegacy stats) :
    LegacyHeFree nLegacy (runEvents events stats) := by
  induction events generalizing stats with
  | nil => exact hs
  | cons e es ih =>
      exact ih (fun x hx => hw x (List.mem_cons_of_mem _ hx)) _
        (applyEvent_preserves nLegacy nTotal e (hw e (List.mem_cons_self _ _))
          stats hs)

theorem legacyHeFree_initial (nLegacy nTotal : Nat) :
    LegacyHeFree nLegacy (initialStats nTotal) := by
  intro j _
  have hz : (initialStats nTotal).getD j {} = {} := by
    unfold initialStats
    rw [List.getD_eq_getElem?_getD]
    rcases Nat.lt_or_ge j nTotal with h | h
    · rw [List.getElem?_replicate, if_pos h]
      rfl
    · rw [List.getElem?_replicate, if_neg (Nat.not_lt.mpr h)]
      rfl
  rw [hz]
  exact ⟨rfl, rfl, rfl, rfl⟩

/-- C10.  In any run whose notifications all come from the trace wiring of
`main` — the HE monitor hook is connected only for stations `i ≥ nLegacy`
— every legacy station's scheduled-access (TB) and single-user frame
counters and byte totals are still 0 at the end of the run. -/
theorem legacy_he_counters_zero (nLegacy nTotal : Nat)
    (events : List TraceEvent)
    (hw : ∀ e ∈ events, wired nLegacy nTotal e = true)
    (i : Nat) (hi : i < nLegacy) :
    ((runEvents events (initialStats nTotal)).getD i {}).heSuTxMpdu = 0 ∧
    ((runEvents events (initialStats nTotal)).getD i {}).heTbTxMpdu = 0 ∧
    ((runEvents events (initialStats nTotal)).getD i {}).heSuTxBytes = 0 ∧
    ((runEvents events (initialStats nTotal)).getD i {}).heTbTxBytes = 0 :=
  runEvents_preserves nLegacy nTotal events hw _
    (legacyHeFree_initial nLegacy nTotal) i hi

/-- Witness for C10: one legacy and one HE station, a run with one failure
on the legacy station, an HE TB frame on the HE station, and a queue
sample on the legacy station. -/
theorem legacy_he_counters_zero_witness :
    ((runEvents
        [TraceEvent.macTxDataFailed 0,
          TraceEvent.heMonitor 1 (some 500) WifiPreamble.heTb,
          TraceEvent.queueSample 0 7]
        (initialStats 2)).getD 0 {}).heTbTxMpdu = 0 :=
  (legacy_he_counters_zero 1 2
    [TraceEvent.macTxDataFailed 0,
      TraceEvent.heMonitor 1 (some 500) WifiPreamble.heTb,
      TraceEvent.queueSample 0 7]
    (by decide) 0 (by decide)).2.1

end Fairness11ax
